import Mathlib

/-!
Verification of the git-air multi-repository synchronization core.

Each external git command invocation is modelled by its observable outcome,
supplied as an input of the embedding: captured stdout is an
Option String (none meaning the command exited non-zero), and the
success of a push or pull against a given remote is a Boolean-valued
function of the remote name. Filesystem trees are a finite inductive
type; walking follows the semantics of filepath.Walk, including the
SkipDir pruning and the two-phase visit of unreadable directories.
Side effects (git subprocess invocations, log lines) are reified as
traces, so that properties about which operations a cycle performs can
be stated as properties of the trace.
-/

namespace GitAir

/-- strings.TrimSpace, as an executable function on the character list:
drop leading and trailing whitespace. -/
def trimChars (cs : List Char) : List Char :=
  ((cs.dropWhile Char.isWhitespace).reverse.dropWhile Char.isWhitespace).reverse

def trimString (s : String) : String :=
  String.mk (trimChars s.data)

/-! ## Orchestrator registry (multi_repo_service.go)

The services map of MultiRepoService is modelled by its key list: the
list of repository paths that currently have a running GitAirService.
startServiceForRepository checks the map under the mutex and is a no-op
when an entry already exists; startRepositoryServices and
periodicRepositoryScan both reduce to folding it over the discovered
repository paths. -/

def startServiceForRepository (services : List String) (path : String) : List String :=
  if path ∈ services then services else path :: services

def startRepositoryServices (services : List String) (discovered : List String) : List String :=
  discovered.foldl startServiceForRepository services

theorem mem_startServiceForRepository_of_mem {services : List String} {x : String}
    (p : String) (h : x ∈ services) : x ∈ startServiceForRepository services p := by
  unfold startServiceForRepository
  by_cases hp : p ∈ services <;> simp [hp, h]

theorem self_mem_startServiceForRepository (services : List String) (p : String) :
    p ∈ startServiceForRepository services p := by
  unfold startServiceForRepository
  by_cases hp : p ∈ services <;> simp [hp]

theorem nodup_startServiceForRepository {services : List String} (p : String)
    (h : services.Nodup) : (startServiceForRepository services p).Nodup := by
  unfold startServiceForRepository
  by_cases hp : p ∈ services <;> simp [hp, h]

theorem mem_startRepositoryServices_of_mem {services : List String} {x : String}
    (discovered : List String) (h : x ∈ services) :
    x ∈ startRepositoryServices services discovered := by
  induction discovered generalizing services with
  | nil => exact h
  | cons d ds ih =>
      exact ih (mem_startServiceForRepository_of_mem d h)

theorem mem_startRepositoryServices_of_discovered {services discovered : List String}
    {x : String} (h : x ∈ discovered) : x ∈ startRepositoryServices services discovered := by
  induction discovered generalizing services with
  | nil => cases h
  | cons d ds ih =>
      rcases List.mem_cons.mp h with rfl | hmem
      · exact mem_startRepositoryServices_of_mem ds
          (self_mem_startServiceForRepository services x)
      · exact ih hmem

theorem startRepositoryServices_eq_of_subset {services discovered : List String}
    (h : ∀ x ∈ discovered, x ∈ services) :
    startRepositoryServices services discovered = services := by
  induction discovered generalizing services with
  | nil => rfl
  | cons d ds ih =>
      have hd : d ∈ services := h d (List.mem_cons_self d ds)
      have hstep : startServiceForRepository services d = services := by
        unfold startServiceForRepository
        simp [hd]
      show startRepositoryServices (startServiceForRepository services d) ds = services
      rw [hstep]
      exact ih fun x hx => h x (List.mem_cons_of_mem d hx)

theorem nodup_startRepositoryServices {services : List String} (discovered : List String)
    (h : services.Nodup) : (startRepositoryServices services discovered).Nodup := by
  induction discovered generalizing services with
  | nil => exact h
  | cons d ds ih => exact ih (nodup_startServiceForRepository d h)

/-- Claim C1: at most one active sync service exists per repository path:
starting a service for a path already present in the services map is a no-op,
the map never acquires duplicate keys, and reconciling twice with the same
discovered repository set leaves the services map, and hence the active
worker count, unchanged after the second pass. -/
theorem reconcile_no_duplicate_workers (services discovered : List String) (p : String)
    (hp : p ∈ services) (hnd : services.Nodup) :
    startServiceForRepository services p = services ∧
    (startRepositoryServices services discovered).Nodup ∧
    startRepositoryServices (startRepositoryServices services discovered) discovered =
      startRepositoryServices services discovered ∧
    (startRepositoryServices (startRepositoryServices services discovered) discovered).length =
      (startRepositoryServices services discovered).length := by
  have hstep : startServiceForRepository services p = services := by
    unfold startServiceForRepository
    simp [hp]
  have hidem : startRepositoryServices (startRepositoryServices services discovered) discovered =
      startRepositoryServices services discovered :=
    startRepositoryServices_eq_of_subset fun x hx =>
      mem_startRepositoryServices_of_discovered hx
  exact ⟨hstep, nodup_startRepositoryServices discovered hnd, hidem, by rw [hidem]⟩

theorem reconcile_no_duplicate_workers_witness :
    startServiceForRepository ["a"] "a" = ["a"] ∧
    (startRepositoryServices ["a"] ["a", "b"]).Nodup ∧
    startRepositoryServices (startRepositoryServices ["a"] ["a", "b"]) ["a", "b"] =
      startRepositoryServices ["a"] ["a", "b"] ∧
    (startRepositoryServices (startRepositoryServices ["a"] ["a", "b"]) ["a", "b"]).length =
      (startRepositoryServices ["a"] ["a", "b"]).length :=
  reconcile_no_duplicate_workers ["a"] ["a", "b"] "a" (by decide) (by decide)

/-! ## Change detector (GitAirService.handleFileEvent)

handleFileEvent first drops the event when the base name of its path
matches an exclusion pattern; otherwise, when AutoCommit is enabled, it
spawns a goroutine that sleeps two seconds and then invokes
performAutoCommit. Each event spawns its own goroutine: nothing replaces
an already scheduled trigger. We count the commit-cycle invocations
scheduled by an event, and by a burst of events. Pattern matching
(filepath.Match on the base name) is an input of the embedding. -/

structure DetectorConfig where
  excludePaths : List String
  autoCommit : Bool

def matchesExclude (matchGlob : String → String → Bool) (cfg : DetectorConfig)
    (base : String) : Bool :=
  cfg.excludePaths.any fun pat => matchGlob pat base

def handleFileEvent (matchGlob : String → String → Bool) (cfg : DetectorConfig)
    (base : String) : Nat :=
  if matchesExclude matchGlob cfg base then 0
  else if cfg.autoCommit then 1 else 0

def handleFileEvents (matchGlob : String → String → Bool) (cfg : DetectorConfig)
    (events : List String) : Nat :=
  (events.map (handleFileEvent matchGlob cfg)).sum

/-- Claim C2, counterexample: a burst of two filesystem events for the same
repository, neither excluded, schedules two performAutoCommit invocations,
not one: each event spawns its own delayed goroutine and no scheduled
trigger is ever replaced. -/
theorem debounce_single_invocation_counterexample :
    handleFileEvents (fun pat base => pat = base) ⟨[], true⟩ ["a.txt", "a.txt"] = 2 ∧
    handleFileEvents (fun pat base => pat = base) ⟨[], true⟩ ["a.txt", "a.txt"] ≠ 1 := by
  constructor <;> decide

/-- Claim C2, amended: with AutoCommit enabled, a burst of K filesystem
events none of which matches an exclusion pattern schedules exactly K
commit-cycle invocations, one per event after a fixed two-second delay;
the code contains no coalescing of triggers within the delay window. -/
theorem debounce_schedules_one_invocation_per_event
    (matchGlob : String → String → Bool) (cfg : DetectorConfig) (events : List String)
    (hac : cfg.autoCommit = true)
    (hex : ∀ e ∈ events, matchesExclude matchGlob cfg e = false) :
    handleFileEvents matchGlob cfg events = events.length := by
  induction events with
  | nil => rfl
  | cons e es ih =>
      have he : matchesExclude matchGlob cfg e = false :=
        hex e (List.mem_cons_self e es)
      have hrest : handleFileEvents matchGlob cfg es = es.length :=
        ih fun x hx => hex x (List.mem_cons_of_mem e hx)
      unfold handleFileEvents at hrest ⊢
      simp [handleFileEvent, he, hac, hrest, Nat.add_comm]

theorem debounce_schedules_one_invocation_per_event_witness :
    handleFileEvents (fun pat base => pat = base) ⟨["b.txt"], true⟩ ["a.txt", "c.txt"] =
      (["a.txt", "c.txt"] : List String).length :=
  debounce_schedules_one_invocation_per_event (fun pat base => pat = base)
    ⟨["b.txt"], true⟩ ["a.txt", "c.txt"] (by decide) (by decide)

/-! ## Filesystem trees

A finite model of the directory trees the walkers traverse. A directory
node carries a readable flag: filepath.Walk visits an unreadable
directory itself (name checks still apply to it) but cannot read its
children, and then reports a walk error for it. -/

inductive FsTree where
  | file (name : String)
  | dir (name : String) (readable : Bool) (children : List FsTree)

def entryName : FsTree → String
  | .file n => n
  | .dir n _ _ => n

mutual
def allReadable : FsTree → Bool
  | .file _ => true
  | .dir _ r cs => r && allReadableList cs
def allReadableList : List FsTree → Bool
  | [] => true
  | c :: cs => allReadable c && allReadableList cs
end

/-! ## Multi-module classification (main.go isMonorepo)

isMonorepo returns true when os.Stat finds a .gitmodules entry directly
under the repository root, or when a walk from the root finds a
directory named .git whose path differs from the path of the root marker
directory root/.git. The walk swallows walk errors (return nil), records
and prunes every nested .git it counts, and does descend into the root
marker directory itself since only its own path is excluded. -/

def hasGitmodulesAtTop : FsTree → Bool
  | .file _ => false
  | .dir _ _ cs => cs.any fun c => entryName c = ".gitmodules"

mutual
def containsNestedGit : FsTree → Bool
  | .file _ => false
  | .dir n r cs =>
      if n = ".git" then true
      else if r then containsNestedGitList cs else false
def containsNestedGitList : List FsTree → Bool
  | [] => false
  | c :: cs => containsNestedGit c || containsNestedGitList cs
end

def scanRootChild : FsTree → Bool
  | .file _ => false
  | .dir n r cs =>
      if n = ".git" then (if r then containsNestedGitList cs else false)
      else containsNestedGit (.dir n r cs)

def isMonorepoNested : FsTree → Bool
  | .file _ => false
  | .dir n r cs =>
      if n = ".git" then true
      else if r then cs.any scanRootChild else false

def isMonorepo (t : FsTree) : Bool :=
  hasGitmodulesAtTop t || isMonorepoNested t

/-! Specification-side classification, for the refinement comparison of
claim C8. It follows the words of the spec: a root is multi-module when
it declares a sub-module manifest file at its top level, or when some
marker directory named .git exists strictly below the root, the root
marker directory root/.git itself excluded (entries below it count). -/

mutual
def existsGitDirWithin : FsTree → Bool
  | .file _ => false
  | .dir n _ cs => n = ".git" || existsGitDirWithinList cs
def existsGitDirWithinList : List FsTree → Bool
  | [] => false
  | c :: cs => existsGitDirWithin c || existsGitDirWithinList cs
end

def specRootChild : FsTree → Bool
  | .file _ => false
  | .dir n r cs =>
      if n = ".git" then existsGitDirWithinList cs
      else existsGitDirWithin (.dir n r cs)

def isMultiModuleSpec : FsTree → Bool
  | .file _ => false
  | .dir n r cs =>
      hasGitmodulesAtTop (.dir n r cs) || cs.any specRootChild

mutual
theorem containsNestedGit_eq_existsGitDirWithin (t : FsTree)
    (h : allReadable t = true) : containsNestedGit t = existsGitDirWithin t := by
  cases t with
  | file n => rfl
  | dir n r cs =>
      have hr : r = true ∧ allReadableList cs = true := by
        simpa [allReadable, Bool.and_eq_true] using h
      by_cases hn : n = ".git"
      · simp [containsNestedGit, existsGitDirWithin, hn]
      · simp [containsNestedGit, existsGitDirWithin, hn, hr.1,
          containsNestedGitList_eq_existsGitDirWithinList cs hr.2]
theorem containsNestedGitList_eq_existsGitDirWithinList (cs : List FsTree)
    (h : allReadableList cs = true) :
    containsNestedGitList cs = existsGitDirWithinList cs := by
  cases cs with
  | nil => rfl
  | cons c cs =>
      have hr : allReadable c = true ∧ allReadableList cs = true := by
        simpa [allReadableList, Bool.and_eq_true] using h
      simp [containsNestedGitList, existsGitDirWithinList,
        containsNestedGit_eq_existsGitDirWithin c hr.1,
        containsNestedGitList_eq_existsGitDirWithinList cs hr.2]
end

theorem scanRootChild_eq_specRootChild (c : FsTree) (h : allReadable c = true) :
    scanRootChild c = specRootChild c := by
  cases c with
  | file n => rfl
  | dir n r cs =>
      have hr : r = true ∧ allReadableList cs = true := by
        simpa [allReadable, Bool.and_eq_true] using h
      by_cases hn : n = ".git"
      · subst hn
        simp [scanRootChild, specRootChild, hr.1,
          containsNestedGitList_eq_existsGitDirWithinList cs hr.2]
      · simp only [scanRootChild, specRootChild, if_neg hn]
        exact containsNestedGit_eq_existsGitDirWithin _ h

theorem allReadableList_forall {cs : List FsTree} (h : allReadableList cs = true) :
    ∀ c ∈ cs, allReadable c = true := by
  induction cs with
  | nil => intro c hc; cases hc
  | cons c cs ih =>
      have hr : allReadable c = true ∧ allReadableList cs = true := by
        simpa [allReadableList, Bool.and_eq_true] using h
      intro x hx
      rcases List.mem_cons.mp hx with rfl | hmem
      · exact hr.1
      · exact ih hr.2 x hmem

theorem any_congr_of_mem {cs : List FsTree} {f g : FsTree → Bool}
    (h : ∀ c ∈ cs, f c = g c) : cs.any f = cs.any g := by
  induction cs with
  | nil => rfl
  | cons c cs ih =>
      have hc : f c = g c := h c (List.mem_cons_self c cs)
      have hrest : cs.any f = cs.any g := ih fun x hx => h x (List.mem_cons_of_mem c hx)
      simp [List.any_cons, hc, hrest]

/-- Claim C8: on a readable tree, for a repository root (which, being the
parent directory of a marker directory found by discovery, is itself never
named .git), the multi-module classification returns true if and only if a
.gitmodules entry exists at top level of the root, or some directory named
.git exists strictly below the root, the root marker directory itself
excluded. -/
theorem isMonorepo_iff_spec (t : FsTree)
    (hname : entryName t ≠ ".git") (hread : allReadable t = true) :
    isMonorepo t = isMultiModuleSpec t := by
  cases t with
  | file n => rfl
  | dir n r cs =>
      have hr : r = true ∧ allReadableList cs = true := by
        simpa [allReadable, Bool.and_eq_true] using hread
      have hn : n ≠ ".git" := hname
      have hany : cs.any scanRootChild = cs.any specRootChild :=
        any_congr_of_mem fun c hc =>
          scanRootChild_eq_specRootChild c (allReadableList_forall hr.2 c hc)
      simp [isMonorepo, isMonorepoNested, isMultiModuleSpec, hn, hr.1, hany]

theorem isMonorepo_iff_spec_witness :
    entryName (FsTree.dir "root" true
        [.file "README.md", .dir "sub" true [.dir ".git" true []]]) ≠ ".git" ∧
    allReadable (FsTree.dir "root" true
        [.file "README.md", .dir "sub" true [.dir ".git" true []]]) = true ∧
    isMonorepo (FsTree.dir "root" true
        [.file "README.md", .dir "sub" true [.dir ".git" true []]]) =
      isMultiModuleSpec (FsTree.dir "root" true
        [.file "README.md", .dir "sub" true [.dir ".git" true []]]) :=
  ⟨by decide, by decide,
    isMonorepo_iff_spec
      (FsTree.dir "root" true
        [.file "README.md", .dir "sub" true [.dir ".git" true []]])
      (by decide) (by decide)⟩

/-! ## Simple sync loop (main.go)

processRepo, pullUpdates and their helpers run one commit cycle or one
pull cycle for a repository. The outcome of each external git command is
an input of the environment; the cycle itself is reified as the trace of
git operations it performs. -/

inductive GitOp where
  | add
  | commit (msg : String)
  | push (remote : String) (branch : String)
  | fetch (remote : String)
  | pull (remote : String) (branch : String)
  | submoduleUpdate
deriving DecidableEq

structure RepoEnv where
  fs : FsTree
  statusOutput : Option String
  branchOutput : Option String
  remotesOutput : Option (List String)
  localHead : Option String
  remoteHead : String → String → Option String
  pullOk : String → String → Bool
  submoduleUpdateOk : Bool
  timestamp : String

def hasChanges (e : RepoEnv) : Bool :=
  match e.statusOutput with
  | none => false
  | some out => (trimString out).length != 0

def getRemotes (e : RepoEnv) : List String :=
  match e.remotesOutput with
  | none => []
  | some names => names

def getCurrentBranch (e : RepoEnv) : String :=
  match e.branchOutput with
  | none => "main"
  | some out => trimString out

def pushToAllRemotes (e : RepoEnv) : List GitOp :=
  let remotes := getRemotes e
  if remotes = [] then []
  else remotes.map fun r => GitOp.push r (getCurrentBranch e)

def hasRemoteChanges (localHead : Option String) (e : RepoEnv)
    (remote branch : String) : Bool :=
  match localHead, e.remoteHead remote branch with
  | some l, some r => l != r
  | _, _ => false

/-- The per-remote loop of pullFromRemotes. The local head is re-read by
hasRemoteChanges on every iteration, so a successful pull (modelled as
fast-forwarding the local head to the pulled remote head) changes what
later remotes are compared against. There is no early exit. -/
def pullLoop (e : RepoEnv) (branch : String)
    (localHead : Option String) : List String → List GitOp
  | [] => []
  | r :: rest =>
      if hasRemoteChanges localHead e r branch then
        GitOp.fetch r :: GitOp.pull r branch ::
          pullLoop e branch
            (if e.pullOk r branch then e.remoteHead r branch else localHead) rest
      else
        GitOp.fetch r :: pullLoop e branch localHead rest

def pullFromRemotes (e : RepoEnv) : List GitOp :=
  let remotes := getRemotes e
  if remotes = [] then []
  else pullLoop e (getCurrentBranch e) e.localHead remotes

def syncSubmodules (e : RepoEnv) : Bool × List GitOp :=
  if hasGitmodulesAtTop e.fs = false then (true, [])
  else if e.submoduleUpdateOk = false then (false, [GitOp.submoduleUpdate])
  else (true, [GitOp.submoduleUpdate, GitOp.add])

def processRepo (e : RepoEnv) : List GitOp :=
  if isMonorepo e.fs then
    match syncSubmodules e with
    | (false, ops) => ops
    | (true, ops) =>
        if hasChanges e = false then ops
        else ops ++ GitOp.add ::
          GitOp.commit ("auto commit (monorepo) - " ++ e.timestamp) :: pushToAllRemotes e
  else
    if hasChanges e = false then []
    else GitOp.add ::
      GitOp.commit ("auto commit - " ++ e.timestamp) :: pushToAllRemotes e

def pullTargets (ops : List GitOp) : List String :=
  ops.filterMap fun op =>
    match op with
    | GitOp.pull r _ => some r
    | _ => none

def fetchTargets (ops : List GitOp) : List String :=
  ops.filterMap fun op =>
    match op with
    | GitOp.fetch r => some r
    | _ => none

theorem syncSubmodules_of_fail (e : RepoEnv) (h : (syncSubmodules e).1 = false) :
    syncSubmodules e = (false, [GitOp.submoduleUpdate]) ∧
    hasGitmodulesAtTop e.fs = true := by
  unfold syncSubmodules at h ⊢
  by_cases h1 : hasGitmodulesAtTop e.fs = false
  · simp [h1] at h
  · by_cases h2 : e.submoduleUpdateOk = false
    · exact ⟨by simp [h1, h2], by simpa using h1⟩
    · simp [h1, h2] at h

theorem isMonorepo_of_gitmodules (t : FsTree) (h : hasGitmodulesAtTop t = true) :
    isMonorepo t = true := by
  simp [isMonorepo, h]

/-- Claim C4: when syncSubmodules fails for a multi-module repository, the
commit cycle is aborted before committing: the trace of that processRepo
cycle is just the failed submodule update, with zero stage, commit and
push operations (the stage that a successful submodule sync performs never
happens on the failure path). -/
theorem submodule_failure_aborts_cycle (e : RepoEnv)
    (hfail : (syncSubmodules e).1 = false) :
    processRepo e = [GitOp.submoduleUpdate] ∧
    GitOp.add ∉ processRepo e ∧
    (∀ m, GitOp.commit m ∉ processRepo e) ∧
    (∀ r b, GitOp.push r b ∉ processRepo e) := by
  obtain ⟨hsync, hgm⟩ := syncSubmodules_of_fail e hfail
  have hmono : isMonorepo e.fs = true := isMonorepo_of_gitmodules e.fs hgm
  have htrace : processRepo e = [GitOp.submoduleUpdate] := by
    unfold processRepo
    rw [hmono, hsync]
    simp
  refine ⟨htrace, ?_, ?_, ?_⟩
  · simp [htrace]
  · intro m; simp [htrace]
  · intro r b; simp [htrace]

def envSubmoduleFail : RepoEnv :=
  { fs := FsTree.dir "mono" true [FsTree.file ".gitmodules", FsTree.dir ".git" true []]
    statusOutput := some " M lib"
    branchOutput := some "main"
    remotesOutput := some ["origin"]
    localHead := some "L"
    remoteHead := fun _ _ => some "L"
    pullOk := fun _ _ => true
    submoduleUpdateOk := false
    timestamp := "2025-01-01 00:00:00" }

theorem submodule_failure_aborts_cycle_witness :
    processRepo envSubmoduleFail = [GitOp.submoduleUpdate] ∧
    GitOp.add ∉ processRepo envSubmoduleFail ∧
    (∀ m, GitOp.commit m ∉ processRepo envSubmoduleFail) ∧
    (∀ r b, GitOp.push r b ∉ processRepo envSubmoduleFail) :=
  submodule_failure_aborts_cycle envSubmoduleFail (by decide)

theorem syncSubmodules_ops (e : RepoEnv) :
    (syncSubmodules e).2 = [] ∨
    (syncSubmodules e).2 = [GitOp.submoduleUpdate] ∨
    (syncSubmodules e).2 = [GitOp.submoduleUpdate, GitOp.add] := by
  unfold syncSubmodules
  by_cases h1 : hasGitmodulesAtTop e.fs = false <;>
    by_cases h2 : e.submoduleUpdateOk = false <;> simp [h1, h2]

/-- Claim C10: when the git status query itself fails, hasChanges reports
false rather than an error, so the cycle performs nothing beyond the
submodule-sync step that precedes the change check: no commit and no push
is attempted, and for a plain repository the cycle performs no operation
at all. The failure is absorbed silently (hasChanges has no error
channel). -/
theorem status_failure_absorbed (e : RepoEnv) (h : e.statusOutput = none) :
    hasChanges e = false ∧
    processRepo e = (if isMonorepo e.fs then (syncSubmodules e).2 else []) ∧
    (∀ m, GitOp.commit m ∉ processRepo e) ∧
    (∀ r b, GitOp.push r b ∉ processRepo e) := by
  have hch : hasChanges e = false := by simp [hasChanges, h]
  have htrace : processRepo e = (if isMonorepo e.fs then (syncSubmodules e).2 else []) := by
    unfold processRepo
    by_cases hm : isMonorepo e.fs = true
    · rcases hs : syncSubmodules e with ⟨b, ops⟩
      cases b <;> simp [hm, hs, hch]
    · have hm2 : isMonorepo e.fs = false := by simpa using hm
      simp [hm2, hch]
  have hsub : ∀ op ∈ processRepo e, op = GitOp.submoduleUpdate ∨ op = GitOp.add := by
    intro op hop
    rw [htrace] at hop
    by_cases hm : isMonorepo e.fs = true
    · rw [if_pos hm] at hop
      rcases syncSubmodules_ops e with h0 | h0 | h0 <;> rw [h0] at hop <;> simp at hop
      · left; exact hop
      · rcases hop with h1 | h1
        · left; exact h1
        · right; exact h1
    · rw [if_neg hm] at hop
      cases hop
  refine ⟨hch, htrace, ?_, ?_⟩
  · intro m hmem
    rcases hsub _ hmem with h1 | h1 <;> cases h1
  · intro r b hmem
    rcases hsub _ hmem with h1 | h1 <;> cases h1

def envStatusFail : RepoEnv :=
  { fs := FsTree.dir "mono" true [FsTree.file ".gitmodules", FsTree.dir ".git" true []]
    statusOutput := none
    branchOutput := some "main"
    remotesOutput := some ["origin"]
    localHead := some "L"
    remoteHead := fun _ _ => some "L"
    pullOk := fun _ _ => true
    submoduleUpdateOk := true
    timestamp := "2025-01-01 00:00:00" }

theorem status_failure_absorbed_witness :
    hasChanges envStatusFail = false ∧
    processRepo envStatusFail =
      (if isMonorepo envStatusFail.fs then (syncSubmodules envStatusFail).2 else []) ∧
    (∀ m, GitOp.commit m ∉ processRepo envStatusFail) ∧
    (∀ r b, GitOp.push r b ∉ processRepo envStatusFail) :=
  status_failure_absorbed envStatusFail rfl

def envPullTwo : RepoEnv :=
  { fs := FsTree.dir "repo" true [FsTree.dir ".git" true []]
    statusOutput := some ""
    branchOutput := some "main"
    remotesOutput := some ["r1", "r2"]
    localHead := some "L"
    remoteHead := fun r _ => if r = "r1" then some "A" else some "B"
    pullOk := fun _ _ => true
    submoduleUpdateOk := true
    timestamp := "2025-01-01 00:00:00" }

/-- Claim C3, counterexample: remotes r1 and r2 both have branch heads that
differ from the local head. The pull from r1 is attempted first and
succeeds (pullOk is true for every remote), yet pullFromRemotes still
fetches r2, still finds it differing, and attempts a second pull in the
same cycle: the loop has no early exit after a successful pull. -/
theorem pull_first_success_counterexample :
    pullFromRemotes envPullTwo =
      [GitOp.fetch "r1", GitOp.pull "r1" "main",
       GitOp.fetch "r2", GitOp.pull "r2" "main"] ∧
    envPullTwo.pullOk "r1" "main" = true ∧
    pullTargets (pullFromRemotes envPullTwo) ≠ ["r1"] := by
  refine ⟨rfl, rfl, ?_⟩
  decide

theorem pullLoop_cons_same (e : RepoEnv) (branch : String) (localHead : Option String)
    (r : String) (rest : List String)
    (h : hasRemoteChanges localHead e r branch = false) :
    pullLoop e branch localHead (r :: rest) =
      GitOp.fetch r :: pullLoop e branch localHead rest := by
  rw [pullLoop]
  simp [h]

theorem pullLoop_cons_differs (e : RepoEnv) (branch : String) (localHead : Option String)
    (r : String) (rest : List String)
    (h : hasRemoteChanges localHead e r branch = true) :
    pullLoop e branch localHead (r :: rest) =
      GitOp.fetch r :: GitOp.pull r branch ::
        pullLoop e branch
          (if e.pullOk r branch then e.remoteHead r branch else localHead) rest := by
  rw [pullLoop]
  simp [h]

/-- Claim C3, amended: remotes are visited in listing order and each one is
fetched; a pull is attempted exactly for the remotes whose head differs
from the local head current at the moment they are visited; the loop does
not stop after a successful pull. In the two-remote scenario where the
first remote has no new commits and the second does, exactly one pull is
attempted, against the second remote. -/
theorem pull_visits_remotes_in_order (e : RepoEnv) (b o l hd : String)
    (hrem : e.remotesOutput = some [b, o])
    (hl : e.localHead = some l)
    (hb : e.remoteHead b (getCurrentBranch e) = some l)
    (ho : e.remoteHead o (getCurrentBranch e) = some hd)
    (hne : hd ≠ l) :
    pullFromRemotes e =
      [GitOp.fetch b, GitOp.fetch o, GitOp.pull o (getCurrentBranch e)] ∧
    pullTargets (pullFromRemotes e) = [o] ∧
    fetchTargets (pullFromRemotes e) = [b, o] := by
  have h1 : hasRemoteChanges (some l) e b (getCurrentBranch e) = false := by
    unfold hasRemoteChanges
    rw [hb]
    simp
  have h2 : hasRemoteChanges (some l) e o (getCurrentBranch e) = true := by
    unfold hasRemoteChanges
    rw [ho]
    simp [bne_iff_ne]
    exact fun hx => hne hx.symm
  have htrace : pullFromRemotes e =
      [GitOp.fetch b, GitOp.fetch o, GitOp.pull o (getCurrentBranch e)] := by
    have hrs : getRemotes e = [b, o] := by simp [getRemotes, hrem]
    unfold pullFromRemotes
    rw [hrs, if_neg (by simp), hl]
    rw [pullLoop_cons_same e (getCurrentBranch e) (some l) b [o] h1]
    rw [pullLoop_cons_differs e (getCurrentBranch e) (some l) o [] h2]
    simp [pullLoop]
  exact ⟨htrace, by simp [htrace, pullTargets], by simp [htrace, fetchTargets]⟩

def envPullScenario : RepoEnv :=
  { fs := FsTree.dir "repo" true [FsTree.dir ".git" true []]
    statusOutput := some ""
    branchOutput := some "main"
    remotesOutput := some ["backup", "origin"]
    localHead := some "L"
    remoteHead := fun r _ => if r = "backup" then some "L" else some "N"
    pullOk := fun _ _ => true
    submoduleUpdateOk := true
    timestamp := "2025-01-01 00:00:00" }

theorem pull_visits_remotes_in_order_witness :
    pullFromRemotes envPullScenario =
      [GitOp.fetch "backup", GitOp.fetch "origin",
       GitOp.pull "origin" (getCurrentBranch envPullScenario)] ∧
    pullTargets (pullFromRemotes envPullScenario) = ["origin"] ∧
    fetchTargets (pullFromRemotes envPullScenario) = ["backup", "origin"] :=
  pull_visits_remotes_in_order envPullScenario "backup" "origin" "L" "N"
    rfl rfl rfl rfl (by decide)

/-! ## VCS adapter (git.go) and sync worker (GitAirService)

GitRepository wraps git subprocess calls scoped to one path. Each
command outcome is an input: the two diff-index probes of HasChanges,
the add and commit exit statuses, the branch and remote listing outputs,
and per-remote push success. GetRemotes is modelled at the level of its
parsed result, the name-to-url pairs read from the fetch lines of
git remote -v. -/

structure GitRepo where
  stagedDiff : Bool
  unstagedDiff : Bool
  addOk : Bool
  stagedAfterAdd : Bool
  commitOk : Bool
  branchOutput : Option String
  remotesOutput : Option (List (String × String))
  pushOk : String → Bool

def HasChanges (r : GitRepo) : Bool :=
  r.stagedDiff || r.unstagedDiff

def GetCurrentBranch (r : GitRepo) : Except String String :=
  match r.branchOutput with
  | none => Except.error "failed to get current branch"
  | some out => Except.ok (trimString out)

def GetRemotes (r : GitRepo) : Except String (List (String × String)) :=
  match r.remotesOutput with
  | none => Except.error "git remote failed"
  | some remotes => Except.ok remotes

def AddAll (r : GitRepo) : Except String Unit :=
  if r.addOk then Except.ok () else Except.error "git add failed"

/-- Commit first probes for staged changes and silently succeeds without
running git commit when there are none. The Bool records whether the
commit command actually ran. -/
def Commit (r : GitRepo) (msg : String) : Bool × Except String Unit :=
  if r.stagedAfterAdd = false then (false, Except.ok ())
  else if r.commitOk then (true, Except.ok ())
  else (true, Except.error ("git commit failed: " ++ msg))

structure PushOutcome where
  attempts : List String
  failures : List String
  result : Except String Unit

/-- The per-remote loop of Push: every remote is visited; a failure is
recorded in the error list and the loop continues. -/
def pushFanOut (r : GitRepo) (branch : String) :
    List (String × String) → List String × List String
  | [] => ([], [])
  | (name, _) :: rest =>
      let (att, errs) := pushFanOut r branch rest
      if r.pushOk name then (name :: att, errs)
      else (name :: att, ("push to " ++ name ++ " failed") :: errs)

def Push (r : GitRepo) : PushOutcome :=
  match GetRemotes r with
  | Except.error e =>
      { attempts := [], failures := []
        result := Except.error ("failed to get remotes: " ++ e) }
  | Except.ok remotes =>
      if remotes = [] then
        { attempts := [], failures := []
          result := Except.error "no remote repository configured" }
      else
        match GetCurrentBranch r with
        | Except.error e =>
            { attempts := [], failures := []
              result := Except.error ("failed to get current branch: " ++ e) }
        | Except.ok branch =>
            let fan := pushFanOut r branch remotes
            if fan.2 = [] then
              { attempts := fan.1, failures := [], result := Except.ok () }
            else
              { attempts := fan.1, failures := fan.2
                result := Except.error
                  ("push failures: " ++ String.intercalate "; " fan.2) }

theorem pushFanOut_spec (r : GitRepo) (branch : String)
    (remotes : List (String × String)) :
    (pushFanOut r branch remotes).1 = remotes.map Prod.fst ∧
    (pushFanOut r branch remotes).2 =
      (remotes.filter fun p => !(r.pushOk p.1)).map
        fun p => "push to " ++ p.1 ++ " failed" := by
  induction remotes with
  | nil => exact ⟨rfl, rfl⟩
  | cons p rest ih =>
      rcases p with ⟨name, url⟩
      by_cases hp : r.pushOk name = true
      · simp [pushFanOut, hp, ih.1, ih.2, List.filter_cons]
      · have hp2 : r.pushOk name = false := by simpa using hp
        simp [pushFanOut, hp2, ih.1, ih.2, List.filter_cons]

/-- Claim C5: in the push fan-out, a failure on one remote never removes a
remaining remote from the cycle: every configured remote is attempted
exactly once, in iteration order; every per-remote failure is collected;
they are reported together in one combined result, which is a success iff
no remote failed. -/
theorem push_fan_out_isolates_failures (r : GitRepo)
    (remotes : List (String × String)) (b : String)
    (hr : r.remotesOutput = some remotes) (hne : remotes ≠ [])
    (hb : r.branchOutput = some b) :
    (Push r).attempts = remotes.map Prod.fst ∧
    (Push r).failures =
      (remotes.filter fun p => !(r.pushOk p.1)).map
        (fun p => "push to " ++ p.1 ++ " failed") ∧
    ((Push r).result = Except.ok () ↔ (Push r).failures = []) ∧
    ((remotes.map Prod.fst).Nodup →
      ∀ n ∈ remotes.map Prod.fst, (Push r).attempts.count n = 1) := by
  have hpush : Push r =
      (if (pushFanOut r (trimString b) remotes).2 = [] then
        { attempts := (pushFanOut r (trimString b) remotes).1
          failures := [], result := Except.ok () }
      else
        { attempts := (pushFanOut r (trimString b) remotes).1
          failures := (pushFanOut r (trimString b) remotes).2
          result := Except.error ("push failures: " ++
            String.intercalate "; " (pushFanOut r (trimString b) remotes).2) }) := by
    unfold Push GetRemotes GetCurrentBranch
    rw [hr, hb]
    dsimp only
    rw [if_neg hne]
  obtain ⟨hatt, herr⟩ := pushFanOut_spec r (trimString b) remotes
  have hcount : ((remotes.map Prod.fst).Nodup →
      ∀ n ∈ remotes.map Prod.fst,
        ((pushFanOut r (trimString b) remotes).1).count n = 1) := by
    intro hnd n hn
    rw [hatt]
    exact List.count_eq_one_of_mem hnd hn
  by_cases hz : (pushFanOut r (trimString b) remotes).2 = []
  · rw [hpush, if_pos hz]
    refine ⟨hatt, (herr.symm.trans hz).symm, by simp, hcount⟩
  · rw [hpush, if_neg hz]
    refine ⟨hatt, herr, ?_, hcount⟩
    constructor
    · intro hcontra
      exact absurd hcontra (by simp)
    · intro hcontra
      exact absurd hcontra hz

def repoMixedPush : GitRepo :=
  { stagedDiff := false
    unstagedDiff := true
    addOk := true
    stagedAfterAdd := true
    commitOk := true
    branchOutput := some "main"
    remotesOutput := some [("backup", "urlA"), ("origin", "urlB")]
    pushOk := fun name => name = "origin" }

theorem push_fan_out_isolates_failures_witness :
    (Push repoMixedPush).attempts =
      ([("backup", "urlA"), ("origin", "urlB")] : List (String × String)).map Prod.fst ∧
    (Push repoMixedPush).failures =
      (([("backup", "urlA"), ("origin", "urlB")] : List (String × String)).filter
          fun p => !(repoMixedPush.pushOk p.1)).map
        (fun p => "push to " ++ p.1 ++ " failed") ∧
    ((Push repoMixedPush).result = Except.ok () ↔ (Push repoMixedPush).failures = []) ∧
    ((([("backup", "urlA"), ("origin", "urlB")] : List (String × String)).map
        Prod.fst).Nodup →
      ∀ n ∈ ([("backup", "urlA"), ("origin", "urlB")] : List (String × String)).map
          Prod.fst,
        (Push repoMixedPush).attempts.count n = 1) :=
  push_fan_out_isolates_failures repoMixedPush
    [("backup", "urlA"), ("origin", "urlB")] "main" rfl (by decide) rfl

/-! ## Sync worker commit cycle (GitAirService.performAutoCommit)

The worker cycle is reified as a list of events: adapter commands that
ran, push attempts, and the log lines the worker emits. performAutoPush
logs a push failure and returns; it has no other failure channel, so a
push error is never fatal to the worker. -/

structure WorkerConfig where
  commitMessage : String
  autoPush : Bool
  timestamp : String

inductive WorkerEv where
  | addAll
  | commitCmd (msg : String)
  | pushAttempt (remote : String)
  | logInfo (msg : String)
  | logError (msg : String)
deriving DecidableEq

def performAutoPush (r : GitRepo) : List WorkerEv :=
  WorkerEv.logInfo "Performing auto push..." ::
    ((Push r).attempts.map WorkerEv.pushAttempt ++
      match (Push r).result with
      | Except.error e => [WorkerEv.logError ("Failed to push changes: " ++ e)]
      | Except.ok _ => [WorkerEv.logInfo "Auto push successful"])

def performAutoCommit (cfg : WorkerConfig) (r : GitRepo) : List WorkerEv :=
  if HasChanges r = false then []
  else
    WorkerEv.logInfo "Changes detected, performing auto commit..." ::
    WorkerEv.addAll ::
    match AddAll r with
    | Except.error e => [WorkerEv.logError ("Failed to add changes: " ++ e)]
    | Except.ok _ =>
        (if (Commit r (cfg.commitMessage ++ " - " ++ cfg.timestamp)).1 then
          [WorkerEv.commitCmd (cfg.commitMessage ++ " - " ++ cfg.timestamp)]
        else []) ++
        match (Commit r (cfg.commitMessage ++ " - " ++ cfg.timestamp)).2 with
        | Except.error e => [WorkerEv.logError ("Failed to commit changes: " ++ e)]
        | Except.ok _ =>
            WorkerEv.logInfo "Auto commit successful" ::
            (if cfg.autoPush then performAutoPush r else [])

def errorLogs (t : List WorkerEv) : List String :=
  t.filterMap fun ev =>
    match ev with
    | WorkerEv.logError m => some m
    | _ => none

def pushAttemptsOf (t : List WorkerEv) : List String :=
  t.filterMap fun ev =>
    match ev with
    | WorkerEv.pushAttempt m => some m
    | _ => none

def repoNoRemotes : GitRepo :=
  { stagedDiff := false
    unstagedDiff := true
    addOk := true
    stagedAfterAdd := true
    commitOk := true
    branchOutput := some "main"
    remotesOutput := some []
    pushOk := fun _ => true }

def cfgAutoPush : WorkerConfig :=
  { commitMessage := "auto commit"
    autoPush := true
    timestamp := "2025-01-01 00:00:00" }

/-- Claim C7, counterexample: on a repository with local changes and zero
configured remotes, staging and committing succeed, but the worker does not
skip the push step silently: with autoPush enabled (the default), Push
treats the empty remote list as an error, and performAutoPush logs it. The
cycle therefore ends with one error line logged, contradicting that no
errors are logged or reported. -/
theorem zero_remotes_error_logged_counterexample :
    WorkerEv.commitCmd "auto commit - 2025-01-01 00:00:00"
      ∈ performAutoCommit cfgAutoPush repoNoRemotes ∧
    pushAttemptsOf (performAutoCommit cfgAutoPush repoNoRemotes) = [] ∧
    errorLogs (performAutoCommit cfgAutoPush repoNoRemotes) =
      ["Failed to push changes: no remote repository configured"] := by
  refine ⟨by decide, rfl, rfl⟩

/-- Claim C7, amended: on a repository with local changes and zero
configured remotes, staging and committing succeed and the worker completes
the cycle (a push failure is never fatal), and no push to any remote is
attempted; the simple loop of main.go does skip its push step silently on
zero remotes; but the worker path treats zero remotes as an error inside
Push, and performAutoPush logs exactly one error line for it. -/
theorem zero_remotes_push_error_logged (cfg : WorkerConfig) (r : GitRepo) (e : RepoEnv)
    (hch : HasChanges r = true) (hadd : r.addOk = true)
    (hst : r.stagedAfterAdd = true) (hcm : r.commitOk = true)
    (hrem : r.remotesOutput = some []) (hap : cfg.autoPush = true)
    (hrem2 : e.remotesOutput = some []) :
    performAutoCommit cfg r =
      [WorkerEv.logInfo "Changes detected, performing auto commit...",
       WorkerEv.addAll,
       WorkerEv.commitCmd (cfg.commitMessage ++ " - " ++ cfg.timestamp),
       WorkerEv.logInfo "Auto commit successful",
       WorkerEv.logInfo "Performing auto push...",
       WorkerEv.logError "Failed to push changes: no remote repository configured"] ∧
    pushAttemptsOf (performAutoCommit cfg r) = [] ∧
    errorLogs (performAutoCommit cfg r) =
      ["Failed to push changes: no remote repository configured"] ∧
    pushToAllRemotes e = [] := by
  have hpush : Push r =
      { attempts := [], failures := []
        result := Except.error "no remote repository configured" } := by
    unfold Push GetRemotes
    rw [hrem]
    rfl
  have htrace : performAutoCommit cfg r =
      [WorkerEv.logInfo "Changes detected, performing auto commit...",
       WorkerEv.addAll,
       WorkerEv.commitCmd (cfg.commitMessage ++ " - " ++ cfg.timestamp),
       WorkerEv.logInfo "Auto commit successful",
       WorkerEv.logInfo "Performing auto push...",
       WorkerEv.logError "Failed to push changes: no remote repository configured"] := by
    unfold performAutoCommit AddAll Commit performAutoPush
    rw [hch, hadd, hst, hcm, hap, hpush]
    simp
  refine ⟨htrace, ?_, ?_, ?_⟩
  · simp [htrace, pushAttemptsOf]
  · simp [htrace, errorLogs]
  · simp [pushToAllRemotes, getRemotes, hrem2]

def envNoRemotes : RepoEnv :=
  { fs := FsTree.dir "repo" true [FsTree.dir ".git" true []]
    statusOutput := some "?? f"
    branchOutput := some "main"
    remotesOutput := some []
    localHead := some "L"
    remoteHead := fun _ _ => some "L"
    pullOk := fun _ _ => true
    submoduleUpdateOk := true
    timestamp := "2025-01-01 00:00:00" }

theorem zero_remotes_push_error_logged_witness :
    performAutoCommit cfgAutoPush repoNoRemotes =
      [WorkerEv.logInfo "Changes detected, performing auto commit...",
       WorkerEv.addAll,
       WorkerEv.commitCmd (cfgAutoPush.commitMessage ++ " - " ++ cfgAutoPush.timestamp),
       WorkerEv.logInfo "Auto commit successful",
       WorkerEv.logInfo "Performing auto push...",
       WorkerEv.logError "Failed to push changes: no remote repository configured"] ∧
    pushAttemptsOf (performAutoCommit cfgAutoPush repoNoRemotes) = [] ∧
    errorLogs (performAutoCommit cfgAutoPush repoNoRemotes) =
      ["Failed to push changes: no remote repository configured"] ∧
    pushToAllRemotes envNoRemotes = [] :=
  zero_remotes_push_error_logged cfgAutoPush repoNoRemotes envNoRemotes
    rfl rfl rfl rfl rfl rfl rfl

/-! ## Branch lookup failure (claim C9)

git.go GetCurrentBranch surfaces a command failure as an error and Push
then aborts the cycle without attempting any remote; but main.go
getCurrentBranch, used by the simple loop, silently falls back to the
branch name main and the cycle proceeds with it. -/

def envBranchFail : RepoEnv :=
  { fs := FsTree.dir "repo" true [FsTree.dir ".git" true []]
    statusOutput := some " M f"
    branchOutput := none
    remotesOutput := some ["origin"]
    localHead := some "L"
    remoteHead := fun _ _ => some "L"
    pullOk := fun _ _ => true
    submoduleUpdateOk := true
    timestamp := "2025-01-01 00:00:00" }

/-- Claim C9, counterexample: when the branch lookup command fails in the
simple loop, getCurrentBranch does not fail with an error: it returns the
fallback branch name main, and the push cycle proceeds, pushing to origin
with that name instead of being skipped. -/
theorem branch_error_counterexample :
    getCurrentBranch envBranchFail = "main" ∧
    pushToAllRemotes envBranchFail = [GitOp.push "origin" "main"] :=
  ⟨rfl, rfl⟩

/-- Claim C9, amended: the adapter GetCurrentBranch of git.go fails with a
branch error when the command fails, and its caller Push then attempts no
remote and reports the error non-fatally; but the simple loop of main.go
instead falls back to the branch name main and proceeds with the push
cycle using that name. -/
theorem branch_error_amended (r : GitRepo) (rs : List (String × String)) (e : RepoEnv)
    (h1 : r.branchOutput = none) (h2 : r.remotesOutput = some rs) (h3 : rs ≠ [])
    (h4 : e.branchOutput = none) :
    GetCurrentBranch r = Except.error "failed to get current branch" ∧
    (Push r).attempts = [] ∧
    (Push r).result =
      Except.error "failed to get current branch: failed to get current branch" ∧
    getCurrentBranch e = "main" ∧
    pushToAllRemotes e = (getRemotes e).map (fun rem => GitOp.push rem "main") := by
  have hbr : GetCurrentBranch r = Except.error "failed to get current branch" := by
    unfold GetCurrentBranch
    rw [h1]
  have hpush : Push r =
      { attempts := [], failures := []
        result := Except.error
          "failed to get current branch: failed to get current branch" } := by
    unfold Push GetRemotes
    rw [h2, hbr]
    dsimp only
    rw [if_neg h3]
    rfl
  have hgb : getCurrentBranch e = "main" := by
    unfold getCurrentBranch
    rw [h4]
  refine ⟨hbr, by rw [hpush], by rw [hpush], hgb, ?_⟩
  by_cases hz : getRemotes e = []
  · simp [pushToAllRemotes, hz]
  · simp [pushToAllRemotes, hz, hgb]

def repoBranchFail : GitRepo :=
  { stagedDiff := false
    unstagedDiff := true
    addOk := true
    stagedAfterAdd := true
    commitOk := true
    branchOutput := none
    remotesOutput := some [("origin", "url")]
    pushOk := fun _ => true }

theorem branch_error_amended_witness :
    GetCurrentBranch repoBranchFail = Except.error "failed to get current branch" ∧
    (Push repoBranchFail).attempts = [] ∧
    (Push repoBranchFail).result =
      Except.error "failed to get current branch: failed to get current branch" ∧
    getCurrentBranch envBranchFail = "main" ∧
    pushToAllRemotes envBranchFail =
      (getRemotes envBranchFail).map (fun rem => GitOp.push rem "main") :=
  branch_error_amended repoBranchFail [("origin", "url")] envBranchFail
    rfl rfl (by decide) rfl

/-! ## Repository scanner (scanner.go)

scanPath walks one root with filepath.Walk. Its walk callback returns the
walk error when one is reported, which makes filepath.Walk abort the
whole walk of that root; scanPath hands the repositories collected so far
back together with that error. ScanForRepositories then logs the error
and continues with the next root, discarding the partial repository list
of the failed root, and itself always returns without error. A directory
whose base name matches an exclusion pattern is pruned before any other
check; a directory named .git records its parent directory as a
repository and is pruned, unless analyzeRepository fails, in which case
the callback returns nil and the walk descends into the marker directory.
Exclusion matching and analyzeRepository success are inputs. -/

structure ScanEnv where
  excl : String → Bool
  analyzeOk : List String → Bool

mutual
def scanWalk (env : ScanEnv) (parent : List String) :
    FsTree → List (List String) × Bool
  | .file _ => ([], false)
  | .dir name readable cs =>
      if env.excl name then ([], false)
      else if name = ".git" then
        if env.analyzeOk parent then ([parent], false)
        else
          if readable then scanWalkList env (parent ++ [name]) cs
          else ([], true)
      else
        if readable then scanWalkList env (parent ++ [name]) cs
        else ([], true)
def scanWalkList (env : ScanEnv) (self : List String) :
    List FsTree → List (List String) × Bool
  | [] => ([], false)
  | c :: cs =>
      let r1 := scanWalk env self c
      if r1.2 then r1
      else
        let r2 := scanWalkList env self cs
        (r1.1 ++ r2.1, r2.2)
end

def scanPath (env : ScanEnv) (root : FsTree) : List (List String) × Bool :=
  scanWalk env [] root

def scanStep (env : ScanEnv) (acc : List (List String)) (root : FsTree) :
    List (List String) :=
  if (scanPath env root).2 then acc else acc ++ (scanPath env root).1

def ScanForRepositories (env : ScanEnv) (scanPaths : List FsTree) :
    List (List String) :=
  scanPaths.foldl (scanStep env) []

theorem scanStep_eq_append (env : ScanEnv) (acc : List (List String)) (root : FsTree) :
    scanStep env acc root = acc ++ scanStep env [] root := by
  unfold scanStep
  by_cases h : (scanPath env root).2 <;> simp [h]

theorem scan_foldl_append (env : ScanEnv) (roots : List FsTree)
    (acc : List (List String)) :
    roots.foldl (scanStep env) acc = acc ++ roots.foldl (scanStep env) [] := by
  induction roots generalizing acc with
  | nil => simp
  | cons r rs ih =>
      simp only [List.foldl_cons]
      rw [ih (scanStep env acc r), scanStep_eq_append env acc r,
        ih (scanStep env [] r), List.append_assoc]

def envScanPlain : ScanEnv :=
  { excl := fun _ => false
    analyzeOk := fun _ => true }

def treeBadSubtree : FsTree :=
  FsTree.dir "root" true
    [FsTree.dir "b" true [FsTree.dir ".git" true []],
     FsTree.dir "z" false []]

/-- Claim C6, counterexample: one scan root holds a repository at root/b
and an unreadable directory root/z. The walk finds the repository, then
hits the walk error at z; scanPath propagates the error (aborting the
walk of that root), and ScanForRepositories discards the partial result
of the failed root, so the repository found elsewhere under the same
root is NOT returned, contradicting that only the erroring subtree is
skipped. -/
theorem scan_error_swallowed_counterexample :
    (scanPath envScanPlain treeBadSubtree).1 = [["root", "b"]] ∧
    (scanPath envScanPlain treeBadSubtree).2 = true ∧
    ScanForRepositories envScanPlain [treeBadSubtree] = [] ∧
    ["root", "b"] ∉ ScanForRepositories envScanPlain [treeBadSubtree] := by
  refine ⟨rfl, rfl, rfl, by decide⟩

/-- Claim C6, amended: a walk error under a scan root aborts the walk of
that entire root and every repository under it, including ones already
found, is dropped for that scan pass; the error is contained per root:
the other roots are scanned exactly as if the failed root were absent,
and ScanForRepositories itself never fails. -/
theorem scan_error_contained (env : ScanEnv) (ra rb : FsTree) (roots : List FsTree)
    (ha : (scanPath env ra).2 = true) (hb : (scanPath env rb).2 = false) :
    ScanForRepositories env (ra :: roots) = ScanForRepositories env roots ∧
    ScanForRepositories env (rb :: roots) =
      (scanPath env rb).1 ++ ScanForRepositories env roots := by
  unfold ScanForRepositories
  constructor
  · simp only [List.foldl_cons]
    rw [show scanStep env [] ra = [] from by simp [scanStep, ha]]
  · simp only [List.foldl_cons]
    rw [show scanStep env [] rb = (scanPath env rb).1 from by simp [scanStep, hb]]
    exact scan_foldl_append env roots (scanPath env rb).1

def treeGoodRoot : FsTree :=
  FsTree.dir "ok" true [FsTree.dir ".git" true []]

theorem scan_error_contained_witness :
    ScanForRepositories envScanPlain [treeBadSubtree] =
      ScanForRepositories envScanPlain [] ∧
    ScanForRepositories envScanPlain [treeGoodRoot] =
      (scanPath envScanPlain treeGoodRoot).1 ++ ScanForRepositories envScanPlain [] :=
  scan_error_contained envScanPlain treeBadSubtree treeGoodRoot [] rfl rfl

end GitAir
